import Mathlib

/-!
The freestanding runtime wrapper `src/_wrapper_file.c`.

A shallow embedding of the five functions of the wrapper file (`exit`,
`putchar`, `print`, `println`, `_start`) as state transformers over a small
x86-64 machine, together with the platform's two syscalls the inline
assembly blocks reach (number 1, write, and number 60, exit).

Conventions of the embedding:

* a register holds an integer; the source performs no arithmetic on
  registers, and the platform truncates the exit status to its low 8 bits;
* arguments travel as the inline assembly of the source expects them: the
  first argument in `rdi`, the second in `rsi`;
* the `int count` of `print` and `println` occupies the low 32 bits of
  `rsi` as its two's-complement pattern with the upper 32 bits zero, and the
  64-bit `mov rdx, rsi` hands that word to the platform, which reads the
  length of a write as an unsigned size: a negative count `n` arrives as
  `n + 2^32`;
* the `int` status of `exit` is read back by the platform as the 32-bit
  `int` it was passed as, so the model keeps the status itself in `rdi`;
* a local variable lives on the downward-growing stack, below the return
  address and the frame pointer the call leaves under the stack pointer of
  the caller; what the call stores in those 16 bytes is not modelled, and no
  statement below depends on where below the stack pointer the local is;
* every run carries the list of events it gave rise to: function calls,
  syscalls (with the bytes a write addressed when it was issued) and executed
  `return;` statements.
-/

namespace Wrapper

/-- The registers named by the inline assembly blocks of the wrapper file. -/
inductive Reg where
  | rax
  | rdi
  | rsi
  | rdx
  deriving DecidableEq, Repr

/-- The source operand of a `mov`: an immediate or a register. -/
inductive Operand where
  | imm (v : Int)
  | reg (r : Reg)
  deriving DecidableEq, Repr

/-- The functions of the program: the five of the wrapper file and the
externally supplied entry point `main`. -/
inductive Fn where
  | exit
  | putchar
  | print
  | println
  | start
  | main
  deriving DecidableEq, Repr

/-- One syscall as the kernel receives it: the four registers at the
`syscall` instruction, and for a write the bytes found at the address in
`rsi` at that moment (`rdx` of them). -/
structure Syscall where
  rax : Int
  rdi : Int
  rsi : Int
  rdx : Int
  bytes : List Nat
  deriving DecidableEq, Repr

/-- What a run lets an observer see, in order. -/
inductive Event where
  | call (f : Fn) (args : List Int)
  | sys (s : Syscall)
  | ret (f : Fn)
  deriving DecidableEq, Repr

/-- The machine: the four registers, the stack pointer, byte-addressed
memory, and per file descriptor the bytes the platform has received. -/
structure Machine where
  rax : Int
  rdi : Int
  rsi : Int
  rdx : Int
  rsp : Int
  mem : Int → Nat
  fds : Int → List Nat

/-- How a piece of code ends: control comes back with a value, or the process
has terminated with an observable exit status. -/
inductive Ctl (α : Type) where
  | ret (a : α)
  | exited (status : Int)
  deriving DecidableEq, Repr

/-- The outcome of running code from a machine state. -/
structure Result (α : Type) where
  ctl : Ctl α
  m : Machine
  events : List Event

/-- Code: a function from the machine state to its outcome. -/
def Prog (α : Type) : Type := Machine → Result α

/-- Sequencing: the second part runs only when the first returns; a
terminated process stays terminated and runs nothing more. -/
def Prog.bind {α β : Type} (x : Prog α) (f : α → Prog β) : Prog β := fun m =>
  match x m with
  | ⟨Ctl.ret a, m1, e1⟩ => ⟨(f a m1).ctl, (f a m1).m, e1 ++ (f a m1).events⟩
  | ⟨Ctl.exited s, m1, e1⟩ => ⟨Ctl.exited s, m1, e1⟩

instance : Monad Prog where
  pure a := fun m => ⟨Ctl.ret a, m, []⟩
  bind := Prog.bind

/-- Reads a register. -/
def Machine.get (m : Machine) : Reg → Int
  | Reg.rax => m.rax
  | Reg.rdi => m.rdi
  | Reg.rsi => m.rsi
  | Reg.rdx => m.rdx

/-- Writes a register. -/
def Machine.set (m : Machine) (r : Reg) (v : Int) : Machine :=
  match r with
  | Reg.rax => { m with rax := v }
  | Reg.rdi => { m with rdi := v }
  | Reg.rsi => { m with rsi := v }
  | Reg.rdx => { m with rdx := v }

/-- The value of a `mov` source operand. -/
def Machine.operand (m : Machine) : Operand → Int
  | Operand.imm v => v
  | Operand.reg r => m.get r

/-- The instruction `mov dst, src`. -/
def mov (dst : Reg) (src : Operand) : Prog Unit := fun m =>
  ⟨Ctl.ret (), m.set dst (m.operand src), []⟩

/-- A 64-bit register read as an unsigned size. -/
def asSize (v : Int) : Nat := (v % 18446744073709551616).toNat

/-- The image of a C `int` in a 64-bit register: its 32-bit two's-complement
pattern in the low half, the upper half zero. -/
def intReg (v : Int) : Int := v % 4294967296

/-- The bytes of memory a write of length `count` reads starting at `addr`,
`count` taken as an unsigned size. -/
def readBytes (mem : Int → Nat) (addr count : Int) : List Nat :=
  (List.range (asSize count)).map (fun (i : Nat) => mem (addr + (i : Int)))

/-- The instruction `syscall`: the registers as they stand are handed to the
platform, whose side is the x86-64 Linux interface the wrapper is written
for. Number 60 ends the process; the observable exit status is the low 8
bits of `rdi`. Number 1 appends the `rdx` bytes at address `rsi`, `rdx` read
as an unsigned size, to the stream of file descriptor `rdi` and leaves the
number of bytes written in `rax`; as the wrapper assumes, a write always
succeeds in full. Any other number is refused with `-38` in `rax`. -/
def syscall : Prog Unit := fun m =>
  if m.rax = 60 then
    ⟨Ctl.exited (m.rdi % 256), m, [Event.sys ⟨m.rax, m.rdi, m.rsi, m.rdx, []⟩]⟩
  else if m.rax = 1 then
    ⟨Ctl.ret (),
     { m with
       rax := ((readBytes m.mem m.rsi m.rdx).length : Int)
       fds := fun fd =>
         if fd = m.rdi then m.fds fd ++ readBytes m.mem m.rsi m.rdx else m.fds fd },
     [Event.sys ⟨m.rax, m.rdi, m.rsi, m.rdx, readBytes m.mem m.rsi m.rdx⟩]⟩
  else
    ⟨Ctl.ret (), { m with rax := -38 }, [Event.sys ⟨m.rax, m.rdi, m.rsi, m.rdx, []⟩]⟩

/-- Entry of a function of one argument, the pointer of `putchar` or the
status of `exit`: the call is recorded and the argument is in `rdi`. -/
def enter1 (f : Fn) (a : Int) : Prog Unit := fun m =>
  ⟨Ctl.ret (), { m with rdi := a }, [Event.call f [a]]⟩

/-- Entry of a function with the parameters `(char* ptr, int count)`: the
call is recorded, the pointer is in `rdi` and the `int` in the low half of
`rsi`. -/
def enter2 (f : Fn) (a b : Int) : Prog Unit := fun m =>
  ⟨Ctl.ret (), { m with rdi := a, rsi := intReg b }, [Event.call f [a, b]]⟩

/-- The statement `return;` of function `f`. -/
def ret (f : Fn) : Prog Unit := fun m =>
  ⟨Ctl.ret (), m, [Event.ret f]⟩

/-- The bytes a call leaves between the stack pointer of the caller and the
locals of the function called: the return address and the saved frame
pointer, 8 bytes each. -/
def frameLink : Int := 16

/-- The stack a function with one `char` local takes below the stack pointer
of its caller: the frame link and the byte of the local. -/
def frameSize : Int := frameLink + 1

/-- The declaration `char x = v;` of the only local of a function: the frame
is reserved below the stack pointer of the caller, the local is its lowest
byte and is initialised; the result is the address of the variable. -/
def localChar (v : Nat) : Prog Int := fun m =>
  ⟨Ctl.ret (m.rsp - frameSize),
   { m with
     rsp := m.rsp - frameSize
     mem := fun a => if a = m.rsp - frameSize then v else m.mem a },
   []⟩

/-- The end of a function with one `char` local: the frame is released and
the stack pointer is back where the caller left it. -/
def leave : Prog Unit := fun m =>
  ⟨Ctl.ret (), { m with rsp := m.rsp + frameSize }, []⟩

/-- `void exit(int exit_code)`. -/
def exit (exit_code : Int) : Prog Unit := do
  enter1 Fn.exit exit_code
  mov Reg.rax (Operand.imm 60)
  syscall
  ret Fn.exit

/-- `void putchar(char* ptr)`. -/
def putchar (ptr : Int) : Prog Unit := do
  enter1 Fn.putchar ptr
  mov Reg.rax (Operand.imm 1)
  mov Reg.rsi (Operand.reg Reg.rdi)
  mov Reg.rdi (Operand.imm 0)
  mov Reg.rdx (Operand.imm 1)
  syscall
  ret Fn.putchar

/-- `void print(char* ptr, int count)`. -/
def print (ptr count : Int) : Prog Unit := do
  enter2 Fn.print ptr count
  mov Reg.rax (Operand.imm 1)
  mov Reg.rdx (Operand.reg Reg.rsi)
  mov Reg.rsi (Operand.reg Reg.rdi)
  mov Reg.rdi (Operand.imm 0)
  syscall
  ret Fn.print

/-- `void println(char* ptr, int count)`. -/
def println (ptr count : Int) : Prog Unit := do
  enter2 Fn.println ptr count
  print ptr count
  let newline ← localChar 10
  putchar newline
  leave

/-- The call `main()` of the externally supplied entry point: the call is
recorded and `main` runs; its value is the status it returns. -/
def callMain (main : Prog Int) : Prog Int := fun m =>
  ⟨(main m).ctl, (main m).m, Event.call Fn.main [] :: (main m).events⟩

/-- `void _start()`, over the entry point `main` the program is linked
with. -/
def _start (main : Prog Int) : Prog Unit := do
  let status ← callMain main
  exit status
  ret Fn.start

/-- The syscalls among the events of a run, in order. -/
def sysTrace : List Event → List Syscall
  | [] => []
  | Event.sys s :: es => s :: sysTrace es
  | _ :: es => sysTrace es

/-- A machine with zeroed registers, the stack pointer at 4096, zeroed memory
and nothing written to any descriptor. -/
def boot : Machine :=
  ⟨0, 0, 0, 0, 4096, fun _ => 0, fun _ => []⟩

/-- The write syscalls among the events of a run, in order. -/
def writes (es : List Event) : List Syscall :=
  (sysTrace es).filter (fun s => s.rax = 1)

/-- How many times function `f` is called in a list of events. -/
def callsOf (f : Fn) : List Event → Nat
  | [] => 0
  | Event.call g _ :: es => (if g = f then 1 else 0) + callsOf f es
  | _ :: es => callsOf f es

/-- The bytes received so far on standard output, file descriptor 1. -/
def stdout (m : Machine) : List Nat := m.fds 1

/-- The bytes received so far on file descriptor 0. -/
def stdin (m : Machine) : List Nat := m.fds 0

/-- The machine `boot` with the bytes `bs` stored from address `addr` on. -/
def withBytes (addr : Int) (bs : List Nat) : Machine :=
  { boot with mem := fun a => if addr ≤ a then bs.getD (a - addr).toNat 0 else 0 }

/-- An entry point that writes nothing and returns `s`. -/
def mainReturning (s : Int) : Prog Int := pure s

/-- An entry point that prints the five bytes at address 1000 and returns 0. -/
def mainHello : Prog Int := do
  print 1000 5
  pure 0

/-- An entry point that prints the two bytes at address 1000 as a line and
returns 2. -/
def mainHi : Prog Int := do
  println 1000 2
  pure 2

/-- A call of one of the three output primitives, with its arguments. -/
inductive PrimCall where
  | putchar (ptr : Int)
  | print (ptr count : Int)
  | println (ptr count : Int)
  deriving DecidableEq, Repr

/-- Runs the call. -/
def PrimCall.run : PrimCall → Prog Unit
  | PrimCall.putchar ptr => Wrapper.putchar ptr
  | PrimCall.print ptr count => Wrapper.print ptr count
  | PrimCall.println ptr count => Wrapper.println ptr count

/-- The address of the caller's buffer the call is given. -/
def PrimCall.addr : PrimCall → Int
  | PrimCall.putchar ptr => ptr
  | PrimCall.print ptr _ => ptr
  | PrimCall.println ptr _ => ptr

/-- The number of bytes at that address the call hands to the platform: one
for `putchar`, and for `print` and `println` the `int count` as the write
receives it. -/
def PrimCall.len : PrimCall → Int
  | PrimCall.putchar _ => 1
  | PrimCall.print _ count => intReg count
  | PrimCall.println _ count => intReg count

/-- Whether the call is a call of `println`. -/
def PrimCall.isPrintln : PrimCall → Bool
  | PrimCall.println _ _ => true
  | _ => false

/-- Runs a sequence of calls one after the other. -/
def runCalls : List PrimCall → Prog Unit
  | [] => pure ()
  | c :: cs => c.run >>= fun _ => runCalls cs

/-- The syscalls one call issues from the state `m`. -/
def issued (c : PrimCall) (m : Machine) : List Syscall :=
  sysTrace (c.run m).events

/-- Two machine states agree on the bytes the arguments of the call point
to. -/
def agreeOn (c : PrimCall) (m1 m2 : Machine) : Prop :=
  readBytes m1.mem c.addr c.len = readBytes m2.mem c.addr c.len

instance (c : PrimCall) (m1 m2 : Machine) : Decidable (agreeOn c m1 m2) := by
  unfold agreeOn
  infer_instance

/-- The syscalls of a sequence of calls, call by call, each call made in the
state the calls before it left. -/
def tracesInTurn : List PrimCall → Machine → List (List Syscall)
  | [], _ => []
  | c :: cs, m => issued c m :: tracesInTurn cs (c.run m).m

/-- What a syscall transfers, without the address it reads from: number,
descriptor, length and bytes. -/
def Syscall.written (s : Syscall) : Int × Int × Int × List Nat :=
  (s.rax, s.rdi, s.rdx, s.bytes)

/-- The machine `boot` with the stack pointer at `sp`. -/
def bootAt (sp : Int) : Machine :=
  { boot with rsp := sp }

/-! ## Helper lemmas -/

theorem asSize_eq (n : Int) (h0 : 0 ≤ n) (h1 : n < 18446744073709551616) :
    asSize n = n.toNat := by
  unfold asSize
  rw [Int.emod_eq_of_lt h0 h1]

theorem intReg_eq (n : Int) (h0 : 0 ≤ n) (h1 : n < 2147483648) : intReg n = n := by
  unfold intReg
  exact Int.emod_eq_of_lt h0 (by omega)

theorem intReg_range (n : Int) : 0 ≤ intReg n ∧ intReg n < 4294967296 := by
  unfold intReg
  omega

theorem readBytes_one (mem : Int → Nat) (p : Int) : readBytes mem p 1 = [mem p] := by
  have h : asSize 1 = 1 := by decide
  unfold readBytes
  rw [h]
  show [mem (p + ((0 : Nat) : Int))] = [mem p]
  simp

theorem sysTrace_append (xs ys : List Event) :
    sysTrace (xs ++ ys) = sysTrace xs ++ sysTrace ys := by
  induction xs with
  | nil => rfl
  | cons e es ih => cases e <;> simp [sysTrace, ih]

theorem callsOf_append (f : Fn) (xs ys : List Event) :
    callsOf f (xs ++ ys) = callsOf f xs + callsOf f ys := by
  induction xs with
  | nil => simp [callsOf]
  | cons e es ih => cases e <;> simp [callsOf, ih, Nat.add_assoc]

theorem writes_append (xs ys : List Event) :
    writes (xs ++ ys) = writes xs ++ writes ys := by
  simp [writes, sysTrace_append]

theorem start_of_ret (main : Prog Int) (m m1 : Machine) (S : Int) (ev : List Event)
    (h : main m = ⟨Ctl.ret S, m1, ev⟩) :
    _start main m =
      ⟨Ctl.exited (S % 256), { m1 with rdi := S, rax := 60 },
       Event.call Fn.main [] :: ev ++
         [Event.call Fn.exit [S], Event.sys ⟨60, S, m1.rsi, m1.rdx, []⟩]⟩ := by
  simp [_start, callMain, bind, Prog.bind, h, exit, enter1, mov, syscall, ret,
    Machine.set, Machine.operand]

theorem start_of_exited (main : Prog Int) (m m1 : Machine) (st : Int) (ev : List Event)
    (h : main m = ⟨Ctl.exited st, m1, ev⟩) :
    _start main m = ⟨Ctl.exited st, m1, Event.call Fn.main [] :: ev⟩ := by
  simp [_start, callMain, bind, Prog.bind, h]

theorem sysTrace_print (p n : Int) (m : Machine) :
    sysTrace (print p n m).events = [⟨1, 0, p, intReg n, readBytes m.mem p (intReg n)⟩] :=
  rfl

theorem sysTrace_putchar (p : Int) (m : Machine) :
    sysTrace (putchar p m).events = [⟨1, 0, p, 1, [m.mem p]⟩] := by
  rw [← readBytes_one m.mem p]
  rfl

theorem sysTrace_println (p n : Int) (m : Machine) :
    sysTrace (println p n m).events =
      [⟨1, 0, p, intReg n, readBytes m.mem p (intReg n)⟩,
       ⟨1, 0, m.rsp - frameSize, 1, [10]⟩] := by
  simp [println, localChar, leave, enter2, print, putchar, enter1, mov, syscall, ret,
    bind, Prog.bind, Machine.set, Machine.operand, Machine.get, sysTrace, readBytes_one]

theorem issued_eq (c : PrimCall) (m : Machine) :
    issued c m =
      ⟨1, 0, c.addr, c.len, readBytes m.mem c.addr c.len⟩ ::
        (if c.isPrintln then [⟨1, 0, m.rsp - frameSize, 1, [10]⟩] else []) := by
  cases c with
  | putchar p =>
    show sysTrace (putchar p m).events = _
    rw [sysTrace_putchar]
    simp [PrimCall.addr, PrimCall.len, PrimCall.isPrintln, readBytes_one]
  | print p n => rfl
  | println p n =>
    show sysTrace (println p n m).events = _
    rw [sysTrace_println]
    rfl

theorem issued_of_agree (c : PrimCall) (m1 m2 : Machine) (h : agreeOn c m1 m2)
    (hsp : m1.rsp = m2.rsp) : issued c m1 = issued c m2 := by
  unfold agreeOn at h
  rw [issued_eq, issued_eq, h, hsp]

theorem run_ctl (c : PrimCall) (m : Machine) : (c.run m).ctl = Ctl.ret () := by
  cases c <;> rfl

theorem run_rsp (c : PrimCall) (m : Machine) : (c.run m).m.rsp = m.rsp := by
  cases c with
  | putchar p => rfl
  | print p n => rfl
  | println p n =>
    show m.rsp - frameSize + frameSize = m.rsp
    omega

theorem run_mem (c : PrimCall) (m : Machine) (a : Int)
    (h : ¬ (m.rsp - frameSize ≤ a ∧ a < m.rsp)) : (c.run m).m.mem a = m.mem a := by
  cases c with
  | putchar p => rfl
  | print p n => rfl
  | println p n =>
    show (if a = m.rsp - frameSize then 10 else m.mem a) = m.mem a
    have hf : 0 < frameSize := by decide
    have hne : a ≠ m.rsp - frameSize := by
      intro ha
      apply h
      omega
    simp [hne]

theorem readBytes_congr (mem1 mem2 : Int → Nat) (addr len : Int)
    (h : ∀ a, addr ≤ a → mem1 a = mem2 a) :
    readBytes mem1 addr len = readBytes mem2 addr len := by
  unfold readBytes
  apply List.map_congr_left
  intro i _
  apply h
  omega

theorem runCalls_ctl (cs : List PrimCall) (m : Machine) :
    (runCalls cs m).ctl = Ctl.ret () := by
  induction cs generalizing m with
  | nil => rfl
  | cons c cs ih =>
    have hc := run_ctl c m
    rcases hr : c.run m with ⟨ctl, m1, e1⟩
    rw [hr] at hc
    simp only at hc
    subst hc
    simp [runCalls, bind, Prog.bind, hr, ih]

theorem runCalls_cons (c : PrimCall) (cs : List PrimCall) (m : Machine) :
    (runCalls (c :: cs) m).m = (runCalls cs (c.run m).m).m
      ∧ (runCalls (c :: cs) m).events = (c.run m).events ++ (runCalls cs (c.run m).m).events := by
  have hc := run_ctl c m
  rcases hr : c.run m with ⟨ctl, m1, e1⟩
  rw [hr] at hc
  simp only at hc
  subst hc
  simp [runCalls, bind, Prog.bind, hr]

theorem runCalls_snoc (cs : List PrimCall) (c : PrimCall) (m : Machine) :
    (runCalls (cs ++ [c]) m).m = (c.run (runCalls cs m).m).m := by
  induction cs generalizing m with
  | nil => exact (runCalls_cons c [] m).1
  | cons d cs ih =>
    rw [List.cons_append, (runCalls_cons d (cs ++ [c]) m).1, ih, (runCalls_cons d cs m).1]

theorem runCalls_rsp (cs : List PrimCall) (m : Machine) :
    (runCalls cs m).m.rsp = m.rsp := by
  induction cs generalizing m with
  | nil => rfl
  | cons c cs ih => rw [(runCalls_cons c cs m).1, ih, run_rsp]

theorem runCalls_mem (cs : List PrimCall) (m : Machine) (a : Int)
    (h : ¬ (m.rsp - frameSize ≤ a ∧ a < m.rsp)) : (runCalls cs m).m.mem a = m.mem a := by
  induction cs generalizing m with
  | nil => rfl
  | cons c cs ih =>
    rw [(runCalls_cons c cs m).1, ih _ (by rw [run_rsp]; exact h), run_mem c m a h]

theorem agreeOn_runCalls (cs : List PrimCall) (c : PrimCall) (m : Machine)
    (h : m.rsp ≤ c.addr) : agreeOn c m (runCalls cs m).m := by
  unfold agreeOn
  apply readBytes_congr
  intro a ha
  rw [runCalls_mem cs m a (by omega)]

theorem runCalls_trace (cs : List PrimCall) (m : Machine) :
    sysTrace (runCalls cs m).events = (tracesInTurn cs m).flatten := by
  induction cs generalizing m with
  | nil => rfl
  | cons c cs ih =>
    rw [(runCalls_cons c cs m).2, sysTrace_append, ih]
    rfl

theorem tracesInTurn_alone (cs pre : List PrimCall) (m : Machine)
    (h : ∀ c ∈ cs, ∀ before : List PrimCall, agreeOn c m (runCalls before m).m) :
    tracesInTurn cs (runCalls pre m).m = cs.map (fun c => issued c m) := by
  induction cs generalizing pre with
  | nil => rfl
  | cons c cs ih =>
    have h1 : issued c (runCalls pre m).m = issued c m :=
      (issued_of_agree c m (runCalls pre m).m (h c (List.mem_cons_self c cs) pre)
        (runCalls_rsp pre m).symm).symm
    have h2 := ih (pre ++ [c]) (fun d hd => h d (List.mem_cons_of_mem c hd))
    rw [runCalls_snoc] at h2
    show issued c (runCalls pre m).m :: tracesInTurn cs (c.run (runCalls pre m).m).m = _
    rw [h1, h2]
    rfl

theorem len_range (c : PrimCall) : 0 ≤ c.len ∧ c.len < 4294967296 := by
  cases c with
  | putchar p =>
    show (0 : Int) ≤ 1 ∧ (1 : Int) < 4294967296
    decide
  | print p n => exact intReg_range n
  | println p n => exact intReg_range n

theorem agreeOn_run (c : PrimCall) (m : Machine)
    (h : m.rsp ≤ c.addr ∨ c.addr + c.len ≤ m.rsp - frameSize) :
    agreeOn c m (c.run m).m := by
  have hl := len_range c
  have hs : asSize c.len = c.len.toNat := asSize_eq c.len hl.1 (by omega)
  unfold agreeOn readBytes
  rw [hs]
  apply List.map_congr_left
  intro i hi
  have hi2 : i < c.len.toNat := List.mem_range.mp hi
  rw [run_mem c m _ (by omega)]

/-! ## The claims -/

/-- C1: when the entry point `main` returns the status `S`, the events of
`_start` are the call of `main`, then whatever `main` did, then the call
`exit(S)` with its syscall: `_start` adds exactly one call of `main` and
exactly one call of `exit` to the calls `main` made itself, in that order, and
the argument of `exit` is `S` unmodified. -/
theorem start_calls_main_then_exit (main : Prog Int) (m m1 : Machine) (S : Int)
    (ev : List Event) (h : main m = ⟨Ctl.ret S, m1, ev⟩) :
    (_start main m).events =
        Event.call Fn.main [] :: ev ++
          [Event.call Fn.exit [S], Event.sys ⟨60, S, m1.rsi, m1.rdx, []⟩]
      ∧ callsOf Fn.main (_start main m).events = callsOf Fn.main ev + 1
      ∧ callsOf Fn.exit (_start main m).events = callsOf Fn.exit ev + 1 := by
  rw [start_of_ret main m m1 S ev h]
  refine ⟨rfl, ?_, ?_⟩
  · show callsOf Fn.main (Event.call Fn.main [] :: (ev ++ _)) = _
    simp [callsOf, callsOf_append]
    omega
  · show callsOf Fn.exit (Event.call Fn.main [] :: (ev ++ _)) = _
    simp [callsOf, callsOf_append]

/-- Witness of C1: the entry point that prints `Hi` as a line and returns 2;
`_start` calls `main` once and `exit(2)` once, after everything `main` did. -/
theorem start_calls_main_then_exit_witness :
    (_start mainHi (withBytes 1000 [72, 105])).events =
        Event.call Fn.main [] :: (mainHi (withBytes 1000 [72, 105])).events ++
          [Event.call Fn.exit [2],
           Event.sys ⟨60, 2, (mainHi (withBytes 1000 [72, 105])).m.rsi,
             (mainHi (withBytes 1000 [72, 105])).m.rdx, []⟩]
      ∧ callsOf Fn.main (_start mainHi (withBytes 1000 [72, 105])).events =
          callsOf Fn.main (mainHi (withBytes 1000 [72, 105])).events + 1
      ∧ callsOf Fn.exit (_start mainHi (withBytes 1000 [72, 105])).events =
          callsOf Fn.exit (mainHi (withBytes 1000 [72, 105])).events + 1 :=
  start_calls_main_then_exit mainHi (withBytes 1000 [72, 105])
    (mainHi (withBytes 1000 [72, 105])).m 2 (mainHi (withBytes 1000 [72, 105])).events rfl

/-- C2 as stated fails for a negative count: `print(1000, -1)` issues its
syscall with 4294967295 in `rdx`, not -1, the 32-bit pattern of the `int`
being copied whole by `mov rdx, rsi` and read as an unsigned length. -/
theorem print_negative_count_wraps :
    (sysTrace (print 1000 (-1) boot).events).map Syscall.rdx = [4294967295]
      ∧ (sysTrace (print 1000 (-1) boot).events).map Syscall.rdx ≠ [-1] := by
  decide

/-- C2, amended: for a count `n` that is a non-negative `int`, one call
`print(p, n)` issues exactly one syscall, with number 1 in `rax`, descriptor 0
in `rdi`, the address `p` in `rsi` and the count `n` in `rdx`; the bytes it
addresses are the `n` bytes at `p`. -/
theorem print_issues_one_write (p n : Int) (m : Machine) (h0 : 0 ≤ n)
    (h1 : n < 2147483648) :
    sysTrace (print p n m).events = [⟨1, 0, p, n, readBytes m.mem p n⟩] := by
  rw [sysTrace_print, intReg_eq n h0 h1]

/-- Witness of C2, amended: `print(1000, 5)` on the bytes `Hello` issues the
one syscall `write(0, 1000, 5)` addressing those five bytes. -/
theorem print_issues_one_write_witness :
    sysTrace (print 1000 5 (withBytes 1000 [72, 101, 108, 108, 111])).events
      = [⟨1, 0, 1000, 5, [72, 101, 108, 108, 111]⟩] :=
  (print_issues_one_write 1000 5 (withBytes 1000 [72, 101, 108, 108, 111])
    (by decide) (by decide)).trans (by decide)

/-- C3: one call `putchar(p)` issues exactly one syscall, with number 1 in
`rax`, descriptor 0 in `rdi`, the address `p` in `rsi` and the length 1 in
`rdx`; the byte it addresses is the byte at `p`. -/
theorem putchar_issues_one_write (p : Int) (m : Machine) :
    sysTrace (putchar p m).events = [⟨1, 0, p, 1, [m.mem p]⟩] := by
  rw [← readBytes_one m.mem p]
  rfl

/-- C4: one call `exit(s)` issues one syscall, with number 60 in `rax` and
the status `s`, as the caller passed it, in `rdi`. -/
theorem exit_issues_syscall_60 (s : Int) (m : Machine) :
    sysTrace (exit s m).events = [⟨60, s, m.rsi, m.rdx, []⟩] :=
  rfl

/-- C5: `exit` never returns. For every status `s` the run of `exit(s)` ends
terminated at its syscall, which is its last event, and no `return;` is
executed; whatever code follows a call of `exit` has no effect at all. A run
of `_start` never returns either: its events are the call of `main`, what
`main` did, and, when `main` returned, the call of `exit` and the exit
syscall as the last event, with no `return;` of `exit` or `_start` and no
syscall after it. -/
theorem exit_never_returns :
    (∀ (s : Int) (m : Machine),
        (exit s m).ctl = Ctl.exited (s % 256)
        ∧ (exit s m).events =
            [Event.call Fn.exit [s], Event.sys ⟨60, s, m.rsi, m.rdx, []⟩])
    ∧ (∀ (s : Int) (k : Unit → Prog Unit) (m : Machine),
        (exit s >>= k) m = exit s m)
    ∧ (∀ (main : Prog Int) (m : Machine) (a : Unit), (_start main m).ctl ≠ Ctl.ret a)
    ∧ (∀ (main : Prog Int) (m : Machine),
        (_start main m).events =
          Event.call Fn.main [] :: (main m).events ++
            (match (main m).ctl with
             | Ctl.ret S =>
                 [Event.call Fn.exit [S],
                  Event.sys ⟨60, S, (main m).m.rsi, (main m).m.rdx, []⟩]
             | Ctl.exited _ => [])) := by
  refine ⟨fun s m => ⟨rfl, rfl⟩, fun s k m => rfl, ?_, ?_⟩
  · intro main m a
    rcases hr : main m with ⟨c, m1, ev⟩
    cases c with
    | ret S => rw [start_of_ret main m m1 S ev hr]; simp
    | exited st => rw [start_of_exited main m m1 st ev hr]; simp
  · intro main m
    rcases hr : main m with ⟨c, m1, ev⟩
    cases c with
    | ret S => rw [start_of_ret main m m1 S ev hr]
    | exited st => rw [start_of_exited main m m1 st ev hr]; simp

/-- C6 as stated fails for a negative count: the first write of
`println(1000, -1)` has 4294967295 in `rdx`, not -1; the second has length
1. -/
theorem println_negative_count_wraps :
    (sysTrace (println 1000 (-1) boot).events).map Syscall.rdx = [4294967295, 1]
      ∧ (sysTrace (println 1000 (-1) boot).events).map Syscall.rdx ≠ [-1, 1] := by
  decide

/-- C6, amended: for a count `n` that is a non-negative `int`, one call
`println(p, n)` issues exactly two write syscalls: first the one of
`print(p, n)`, with address `p` and length `n`, then the one of `putchar` on
the local `newline`, with length 1 and the address `a` of that local, whose
content at the syscall is 10. Its syscalls and its output are those of
`print(p, n)` followed by `putchar` on that byte, and it returns. -/
theorem println_is_print_then_putchar (p n : Int) (m : Machine) (h0 : 0 ≤ n)
    (h1 : n < 2147483648) :
    ∃ a : Int,
      (localChar 10 (print p n m).m).ctl = Ctl.ret a
      ∧ (localChar 10 (print p n m).m).m.mem a = 10
      ∧ sysTrace (println p n m).events =
          [⟨1, 0, p, n, readBytes m.mem p n⟩, ⟨1, 0, a, 1, [10]⟩]
      ∧ sysTrace (println p n m).events =
          sysTrace (print p n m).events ++
            sysTrace (putchar a (localChar 10 (print p n m).m).m).events
      ∧ (println p n m).m.fds = (putchar a (localChar 10 (print p n m).m).m).m.fds
      ∧ (println p n m).ctl = Ctl.ret () := by
  have h2 : (localChar 10 (print p n m).m).m.mem (m.rsp - frameSize) = 10 := by
    show (if m.rsp - frameSize = m.rsp - frameSize then 10 else m.mem (m.rsp - frameSize)) = 10
    simp
  refine ⟨m.rsp - frameSize, rfl, h2, ?_, ?_, rfl, rfl⟩
  · rw [sysTrace_println, intReg_eq n h0 h1]
  · rw [sysTrace_println, sysTrace_print, sysTrace_putchar, h2]
    rfl

/-- Witness of C6, amended: `println(1000, 2)` on the bytes `Hi`. -/
theorem println_is_print_then_putchar_witness :
    ∃ a : Int,
      (localChar 10 (print 1000 2 (withBytes 1000 [72, 105])).m).ctl = Ctl.ret a
      ∧ (localChar 10 (print 1000 2 (withBytes 1000 [72, 105])).m).m.mem a = 10
      ∧ sysTrace (println 1000 2 (withBytes 1000 [72, 105])).events =
          [⟨1, 0, 1000, 2, readBytes (withBytes 1000 [72, 105]).mem 1000 2⟩,
           ⟨1, 0, a, 1, [10]⟩]
      ∧ sysTrace (println 1000 2 (withBytes 1000 [72, 105])).events =
          sysTrace (print 1000 2 (withBytes 1000 [72, 105])).events ++
            sysTrace (putchar a
              (localChar 10 (print 1000 2 (withBytes 1000 [72, 105])).m).m).events
      ∧ (println 1000 2 (withBytes 1000 [72, 105])).m.fds =
          (putchar a (localChar 10 (print 1000 2 (withBytes 1000 [72, 105])).m).m).m.fds
      ∧ (println 1000 2 (withBytes 1000 [72, 105])).ctl = Ctl.ret () :=
  println_is_print_then_putchar 1000 2 (withBytes 1000 [72, 105]) (by decide) (by decide)

/-- C7, evaluated on the code: `print` on the five bytes `Hello` leaves
standard output (descriptor 1) empty; the bytes go to descriptor 0. The same
holds for the whole program whose entry point prints `Hello` and returns 0,
which ends with exit status 0. With a count of 0 nothing is written
anywhere. From every state `print(p, n)` leaves standard output as it was and
appends the bytes at `p` to descriptor 0, as many as the write receives as
its length. -/
theorem print_hello_misses_stdout :
    (∀ (p n : Int) (m : Machine),
        stdout (print p n m).m = stdout m
        ∧ stdin (print p n m).m = stdin m ++ readBytes m.mem p (intReg n))
      ∧ stdout (print 1000 5 (withBytes 1000 [72, 101, 108, 108, 111])).m = []
      ∧ stdin (print 1000 5 (withBytes 1000 [72, 101, 108, 108, 111])).m
          = [72, 101, 108, 108, 111]
      ∧ stdout (_start mainHello (withBytes 1000 [72, 101, 108, 108, 111])).m = []
      ∧ stdin (_start mainHello (withBytes 1000 [72, 101, 108, 108, 111])).m
          = [72, 101, 108, 108, 111]
      ∧ (_start mainHello (withBytes 1000 [72, 101, 108, 108, 111])).ctl = Ctl.exited 0
      ∧ stdout (print 1000 0 (withBytes 1000 [72, 101, 108, 108, 111])).m = []
      ∧ stdin (print 1000 0 (withBytes 1000 [72, 101, 108, 108, 111])).m = [] := by
  refine ⟨fun p n m => ⟨rfl, rfl⟩, ?_⟩
  decide

/-- C8, evaluated on the code: `println` on the two bytes `Hi` leaves
standard output (descriptor 1) empty; the three bytes `Hi` and 10 go to
descriptor 0. The same holds for the whole program whose entry point prints
`Hi` as a line and returns 2, which ends with exit status 2. From every
state `println(p, n)` leaves standard output as it was and appends the bytes
at `p`, as many as the write receives as its length, and the byte 10 to
descriptor 0. -/
theorem println_hi_misses_stdout :
    (∀ (p n : Int) (m : Machine),
        stdout (println p n m).m = stdout m
        ∧ stdin (println p n m).m = stdin m ++ readBytes m.mem p (intReg n) ++ [10])
      ∧ stdout (println 1000 2 (withBytes 1000 [72, 105])).m = []
      ∧ stdin (println 1000 2 (withBytes 1000 [72, 105])).m = [72, 105, 10]
      ∧ stdout (_start mainHi (withBytes 1000 [72, 105])).m = []
      ∧ stdin (_start mainHi (withBytes 1000 [72, 105])).m = [72, 105, 10]
      ∧ (_start mainHi (withBytes 1000 [72, 105])).ctl = Ctl.exited 2 := by
  refine ⟨fun p n m => ⟨rfl, ?_⟩, ?_⟩
  · simp [stdin, println, localChar, leave, enter2, print, putchar, enter1, mov, syscall,
      ret, bind, Prog.bind, Machine.set, Machine.operand, Machine.get, readBytes_one]
  · decide

/-- C9: when the entry point returns the status `S`, negative or not, the
process run by `_start` terminates with observable exit status `S mod 256`,
a value from 0 to 255; `_start` adds no write to those of `main` and leaves
every output stream as `main` left it. In particular an entry point that
returns 0 and writes nothing gives exit status 0 and no write syscall. -/
theorem start_exit_status (main : Prog Int) (m m1 : Machine) (S : Int)
    (ev : List Event) (h : main m = ⟨Ctl.ret S, m1, ev⟩) :
    (_start main m).ctl = Ctl.exited (S % 256)
      ∧ 0 ≤ S % 256 ∧ S % 256 < 256
      ∧ writes (_start main m).events = writes ev
      ∧ (_start main m).m.fds = m1.fds
      ∧ (S = 0 → writes ev = [] →
          (_start main m).ctl = Ctl.exited 0 ∧ writes (_start main m).events = []) := by
  rw [start_of_ret main m m1 S ev h]
  have hw : writes (Event.call Fn.main [] :: ev ++
      [Event.call Fn.exit [S], Event.sys ⟨60, S, m1.rsi, m1.rdx, []⟩]) = writes ev := by
    show writes (Event.call Fn.main [] :: (ev ++ _)) = _
    simp [writes, sysTrace, sysTrace_append]
  refine ⟨rfl, ?_, ?_, hw, rfl, ?_⟩
  · exact Int.emod_nonneg S (by decide)
  · exact Int.emod_lt_of_pos S (by decide)
  · intro h0 hev
    subst h0
    exact ⟨rfl, by rw [hw, hev]⟩

/-- Witness of C9: an entry point that returns -1 and writes nothing gives
the observable exit status 255 and no write; one that returns 0 and writes
nothing gives exit status 0 and no write. -/
theorem start_exit_status_witness :
    ((_start (mainReturning (-1)) boot).ctl = Ctl.exited 255
      ∧ writes (_start (mainReturning (-1)) boot).events = [])
    ∧ ((_start (mainReturning 0) boot).ctl = Ctl.exited 0
      ∧ writes (_start (mainReturning 0) boot).events = []) :=
  ⟨⟨(start_exit_status (mainReturning (-1)) boot boot (-1) [] rfl).1,
    (start_exit_status (mainReturning (-1)) boot boot (-1) [] rfl).2.2.2.1⟩,
   (start_exit_status (mainReturning 0) boot boot 0 [] rfl).2.2.2.2.2 rfl rfl⟩

/-- C10 as stated fails for `println`: two machine states that agree on the
arguments `(1000, 2)` and on the bytes at 1000, and differ only in the stack
pointer, give different syscalls, because the second write reads the local
`newline`, whose address follows the stack pointer. -/
theorem println_syscalls_differ_with_stack :
    agreeOn (PrimCall.println 1000 2) (bootAt 4096) (bootAt 8192)
      ∧ issued (PrimCall.println 1000 2) (bootAt 4096)
          ≠ issued (PrimCall.println 1000 2) (bootAt 8192) := by
  decide

/-- C10, amended: the output primitives carry no state across calls. For
two machine states that agree on the arguments of a call and on the bytes
they point to, the syscalls issued are the same in number, order, syscall
number, descriptor, length and bytes; for `putchar` and `print` they are the
same in every register, and for `println` too once the stack pointers agree,
its second write reading its own local. So they are the same whatever calls
of the primitives were made before, every primitive returning with the stack
pointer restored. The syscall trace of a sequence of calls is the
concatenation of the traces of the single calls, each made in its turn, and,
when the bytes of the buffers are the same in every state reached, each taken
alone from the starting state. No primitive changes a byte of memory outside
the part of the stack below the stack pointer that a call takes for itself,
so a buffer of the caller, which lies at or above the stack pointer or wholly
below that part, is unchanged. -/
theorem primitives_carry_no_state :
    (∀ (c : PrimCall) (m1 m2 : Machine), agreeOn c m1 m2 →
        (issued c m1).map Syscall.written = (issued c m2).map Syscall.written)
    ∧ (∀ (c : PrimCall) (m1 m2 : Machine), agreeOn c m1 m2 → c.isPrintln = false →
        issued c m1 = issued c m2)
    ∧ (∀ (c : PrimCall) (m1 m2 : Machine), agreeOn c m1 m2 → m1.rsp = m2.rsp →
        issued c m1 = issued c m2)
    ∧ (∀ (cs1 cs2 : List PrimCall) (c : PrimCall) (m : Machine),
        agreeOn c (runCalls cs1 m).m (runCalls cs2 m).m →
        issued c (runCalls cs1 m).m = issued c (runCalls cs2 m).m)
    ∧ (∀ (cs : List PrimCall) (m : Machine),
        sysTrace (runCalls cs m).events = (tracesInTurn cs m).flatten)
    ∧ (∀ (cs : List PrimCall) (m : Machine),
        (∀ c ∈ cs, ∀ before : List PrimCall, agreeOn c m (runCalls before m).m) →
        sysTrace (runCalls cs m).events = (cs.map (fun c => issued c m)).flatten)
    ∧ (∀ (c : PrimCall) (m : Machine),
        (c.run m).ctl = Ctl.ret () ∧ (c.run m).m.rsp = m.rsp)
    ∧ (∃ K : Int,
        (∀ (c : PrimCall) (m : Machine) (a : Int), ¬ (m.rsp - K ≤ a ∧ a < m.rsp) →
          (c.run m).m.mem a = m.mem a)
        ∧ (∀ (c : PrimCall) (m : Machine),
            m.rsp ≤ c.addr ∨ c.addr + c.len ≤ m.rsp - K → agreeOn c m (c.run m).m)) := by
  refine ⟨?_, ?_, issued_of_agree, ?_, runCalls_trace, ?_,
    fun c m => ⟨run_ctl c m, run_rsp c m⟩, ⟨frameSize, run_mem, agreeOn_run⟩⟩
  · intro c m1 m2 h
    unfold agreeOn at h
    rw [issued_eq, issued_eq, h]
    cases c.isPrintln <;> simp [Syscall.written]
  · intro c m1 m2 h hp
    unfold agreeOn at h
    rw [issued_eq, issued_eq, h, hp]
    rfl
  · intro cs1 cs2 c m h
    exact issued_of_agree c _ _ h (by rw [runCalls_rsp, runCalls_rsp])
  · intro cs m h
    have h2 := tracesInTurn_alone cs [] m h
    rw [runCalls_trace]
    exact congrArg List.flatten h2

/-- Witness of C10, amended: calls on the bytes `Hi`. The states with the
stack pointer at 4096 and at 8192 agree on what `println` transfers and on
every register of `print`; `println` issues the same syscalls before and
after the sequence `print`, `println`, `putchar`; the trace of that sequence
is the concatenation of its three traces, made in turn and taken alone; and
`println` leaves a buffer above the stack pointer as it was. -/
theorem primitives_carry_no_state_witness :
    (issued (PrimCall.println 1000 2) (bootAt 4096)).map Syscall.written
        = (issued (PrimCall.println 1000 2) (bootAt 8192)).map Syscall.written
    ∧ issued (PrimCall.print 1000 2) (bootAt 4096)
        = issued (PrimCall.print 1000 2) (bootAt 8192)
    ∧ issued (PrimCall.println 1000 2) (withBytes 1000 [72, 105])
        = issued (PrimCall.println 1000 2) (withBytes 1000 [72, 105, 33])
    ∧ issued (PrimCall.println 1000 2) (runCalls [] (withBytes 1000 [72, 105])).m
        = issued (PrimCall.println 1000 2)
            (runCalls [PrimCall.print 1000 2, PrimCall.println 1000 2, PrimCall.putchar 1001]
              (withBytes 1000 [72, 105])).m
    ∧ sysTrace (runCalls
          [PrimCall.print 1000 2, PrimCall.println 1000 2, PrimCall.putchar 1001]
          (withBytes 1000 [72, 105])).events
        = (tracesInTurn
            [PrimCall.print 1000 2, PrimCall.println 1000 2, PrimCall.putchar 1001]
            (withBytes 1000 [72, 105])).flatten
    ∧ sysTrace (runCalls
          [PrimCall.print 5000 2, PrimCall.println 5000 2, PrimCall.putchar 5001]
          (withBytes 5000 [72, 105])).events
        = ([PrimCall.print 5000 2, PrimCall.println 5000 2, PrimCall.putchar 5001].map
            (fun c => issued c (withBytes 5000 [72, 105]))).flatten
    ∧ agreeOn (PrimCall.println 5000 2) (withBytes 5000 [72, 105])
        ((PrimCall.println 5000 2).run (withBytes 5000 [72, 105])).m :=
  ⟨primitives_carry_no_state.1 (PrimCall.println 1000 2) (bootAt 4096) (bootAt 8192)
      (by decide),
   primitives_carry_no_state.2.1 (PrimCall.print 1000 2) (bootAt 4096) (bootAt 8192)
      (by decide) rfl,
   primitives_carry_no_state.2.2.1 (PrimCall.println 1000 2) (withBytes 1000 [72, 105])
      (withBytes 1000 [72, 105, 33]) (by decide) rfl,
   primitives_carry_no_state.2.2.2.1 []
      [PrimCall.print 1000 2, PrimCall.println 1000 2, PrimCall.putchar 1001]
      (PrimCall.println 1000 2) (withBytes 1000 [72, 105]) (by decide),
   primitives_carry_no_state.2.2.2.2.1
      [PrimCall.print 1000 2, PrimCall.println 1000 2, PrimCall.putchar 1001]
      (withBytes 1000 [72, 105]),
   primitives_carry_no_state.2.2.2.2.2.1
      [PrimCall.print 5000 2, PrimCall.println 5000 2, PrimCall.putchar 5001]
      (withBytes 5000 [72, 105])
      (by
        intro c hc before
        apply agreeOn_runCalls
        simp only [List.mem_cons, List.mem_singleton, List.not_mem_nil, or_false] at hc
        rcases hc with rfl | rfl | rfl <;> decide),
   primitives_carry_no_state.2.2.2.2.2.2.2.elim
     (fun _ hK => hK.2 (PrimCall.println 5000 2) (withBytes 5000 [72, 105])
       (Or.inl (by decide)))⟩

end Wrapper
